import Mathlib

/-!
Verification of the memory-access core of the `d4_theory` repository
(`src/combat_logger/src/memory.rs`): `MemoryReader::find_process`,
`read_bytes`, `read_string` and `write_bytes`, together with the error
taxonomy `memory::Error`.

The OS side (the `process_vm_readv` / `process_vm_writev` syscalls and the
target process's memory) is modelled by an oracle `Machine`: `readv a n`
and `writev a n` give the signed transfer count the syscall reports for a
request of `n` bytes at address `a` (the libc convention: `-1` on error,
otherwise the number of bytes transferred), and `mem x` gives the byte
stored at address `x` in the target process.  Addresses and lengths are
`usize`/`u64` in the source; the claims never exercise wrap-around, so they
are embedded as `Nat`.  A Rust `String` is represented by its UTF-8 byte
list (`String::from_utf8` succeeds exactly on valid UTF-8, and `String::len`
is the byte length), so `read_string` here returns the byte list of the
decoded string.
-/

deriving instance DecidableEq for Except

namespace CombatLogger

/-- The error enum `memory::Error`. Payloads of the wrapped foreign error
types (`std::io::Error`, `Utf8Error`, `ParseIntError`) are opaque to the
claims and dropped. -/
inductive Error where
  | ProcessNotFound : String → Error
  | ReadMemoryFailed : Nat → Error
  | ReadMemoryPartial : Nat → Nat → Error
  | WriteMemoryFailed : Nat → Error
  | WriteMemoryPartial : Nat → Nat → Error
  | IOError : Error
  | UTF8Conversion : Error
  | ParseInt : Error
  | ParseStr : String → Error
deriving DecidableEq, Repr

/-- `pub type MemoryRange = core::ops::Range<u64>`: half-open interval
`[start, stop)`.  The Rust field `end` is a Lean keyword, so it is named
`stop` here. -/
structure MemoryRange where
  start : Nat
  stop : Nat
deriving DecidableEq, Repr

/-- `const CHUNK_SIZE: usize = 256`. -/
def CHUNK_SIZE : Nat := 256

/-- Oracle for the OS side: syscall transfer counts and the target
process's memory contents.  `readv a n` / `writev a n` return the signed
count reported by `process_vm_readv` / `process_vm_writev` for a request
of `n` bytes at address `a`; `mem x` is the byte at address `x`. -/
structure Machine where
  readv : Nat → Nat → Int
  writev : Nat → Nat → Int
  mem : Nat → Nat

/-- `MemoryReader::read_bytes` (memory.rs lines 140-176): one
`process_vm_readv` call; `-1` signals `ReadMemoryFailed(address)`, a count
different from `len` signals `ReadMemoryPartial(address, count as usize)`,
and on an exact count the filled buffer — the `len` bytes of target memory
starting at `address` — is returned. -/
def read_bytes (m : Machine) (address : Nat) (len : Nat) :
    Except Error (List Nat) :=
  let bytes_read := m.readv address len
  if bytes_read = -1 then
    .error (.ReadMemoryFailed address)
  else if bytes_read ≠ (len : Int) then
    .error (.ReadMemoryPartial address bytes_read.toNat)
  else
    .ok ((List.range len).map fun i => m.mem (address + i))

/-- `Iterator::position` as used on a chunk: index of the first byte
satisfying the predicate, if any. -/
def position (p : Nat → Bool) : List Nat → Option Nat
  | [] => none
  | b :: rest => if p b then some 0 else (position p rest).map (· + 1)

/-- The chunked scan loop of `MemoryReader::read_string` (memory.rs lines
183-216).  The Rust `while start < range.end` loop is embedded with a fuel
argument; `read_string` supplies `fuel = range.end - range.start`, which
bounds the iteration count because every iteration advances `start` by
`length_to_read ≥ 1`.  Returns the accumulated buffer together with the
`reached_end` flag, or the error propagated from `read_bytes`. -/
def scanLoop (m : Machine) (stop : Nat) :
    Nat → Nat → List Nat → Except Error (List Nat × Bool)
  | 0, _, buffer => .ok (buffer, false)
  | fuel + 1, start, buffer =>
    if start < stop then
      let length_to_read :=
        if start + CHUNK_SIZE > stop then stop - start else CHUNK_SIZE
      match read_bytes m start length_to_read with
      | .error e => .error e
      | .ok chunk =>
        match position (fun b => b == 0) chunk with
        | some endIdx => .ok (buffer ++ chunk.take endIdx, false)
        | none =>
          if chunk.length < length_to_read then
            .ok (buffer ++ chunk, true)
          else
            scanLoop m stop fuel (start + length_to_read) (buffer ++ chunk)
    else
      .ok (buffer, false)

/-- Helper for `utf8Valid`: a UTF-8 continuation byte, `0x80..=0xBF`. -/
def isCont (b : Nat) : Bool := 0x80 ≤ b && b ≤ 0xBF

/-- Validity of a byte list as UTF-8, exactly the condition under which
Rust's `String::from_utf8` succeeds (shortest-form encodings only,
surrogates and code points above U+10FFFF rejected). -/
def utf8Valid : List Nat → Bool
  | [] => true
  | b :: rest =>
    if b ≤ 0x7F then utf8Valid rest
    else if 0xC2 ≤ b && b ≤ 0xDF then
      match rest with
      | c1 :: rest2 => isCont c1 && utf8Valid rest2
      | [] => false
    else if b = 0xE0 then
      match rest with
      | c1 :: c2 :: rest2 =>
        (0xA0 ≤ c1 && c1 ≤ 0xBF) && (isCont c2 && utf8Valid rest2)
      | _ => false
    else if (0xE1 ≤ b && b ≤ 0xEC) || (b = 0xEE || b = 0xEF) then
      match rest with
      | c1 :: c2 :: rest2 => isCont c1 && (isCont c2 && utf8Valid rest2)
      | _ => false
    else if b = 0xED then
      match rest with
      | c1 :: c2 :: rest2 =>
        (0x80 ≤ c1 && c1 ≤ 0x9F) && (isCont c2 && utf8Valid rest2)
      | _ => false
    else if b = 0xF0 then
      match rest with
      | c1 :: c2 :: c3 :: rest2 =>
        (0x90 ≤ c1 && c1 ≤ 0xBF) &&
          (isCont c2 && (isCont c3 && utf8Valid rest2))
      | _ => false
    else if 0xF1 ≤ b && b ≤ 0xF3 then
      match rest with
      | c1 :: c2 :: c3 :: rest2 =>
        isCont c1 && (isCont c2 && (isCont c3 && utf8Valid rest2))
      | _ => false
    else if b = 0xF4 then
      match rest with
      | c1 :: c2 :: c3 :: rest2 =>
        (0x80 ≤ c1 && c1 ≤ 0x8F) && (isCont c2 && (isCont c3 && utf8Valid rest2))
      | _ => false
    else false

/-- `MemoryReader::read_string` (memory.rs lines 178-231): run the scan
loop, then `String::from_utf8(buffer)`, mapping a decode failure to
`ReadMemoryFailed(range.start)`, and finally turn `reached_end` into
`ReadMemoryPartial(range.start, s.len())`.  The returned value is the byte
list of the decoded string (`s.len()` in Rust is its byte length). -/
def read_string (m : Machine) (range : MemoryRange) :
    Except Error (List Nat) :=
  match scanLoop m range.stop (range.stop - range.start) range.start [] with
  | .error e => .error e
  | .ok (buffer, reached_end) =>
    if utf8Valid buffer then
      if reached_end then
        .error (.ReadMemoryPartial range.start buffer.length)
      else
        .ok buffer
    else
      .error (.ReadMemoryFailed range.start)

/-- `MemoryReader::write_bytes` (memory.rs lines 234-268): one
`process_vm_writev` call; `-1` signals `WriteMemoryFailed(address)`, a
count different from `data.len()` signals
`WriteMemoryPartial(address, count as usize)`, and on an exact count the
call succeeds with `()`. -/
def write_bytes (m : Machine) (address : Nat) (data : List Nat) :
    Except Error Unit :=
  let bytes_written := m.writev address data.length
  if bytes_written = -1 then
    .error (.WriteMemoryFailed address)
  else if bytes_written ≠ (data.length : Int) then
    .error (.WriteMemoryPartial address bytes_written.toNat)
  else
    .ok ()

/-- Modelled from the spec: the OS-level effect on the target's memory of a
fully successful `process_vm_writev` of `data` at `address` (spec section 6,
"write process memory" primitive; section 8, round-trip property).  The
repository contains no model of the target process, only the syscall call
site, so the memory update itself is taken from the spec's description. -/
def writeMem (mem : Nat → Nat) (address : Nat) (data : List Nat) :
    Nat → Nat :=
  fun x =>
    if address ≤ x ∧ x < address + data.length then data.getD (x - address) 0
    else mem x

/-- Modelled from the spec: the machine after a fully successful write of
`data` at `address` — same syscall oracles, memory updated by `writeMem`. -/
def applyWrite (m : Machine) (address : Nat) (data : List Nat) : Machine :=
  { m with mem := writeMem m.mem address data }

/-- The quoting step of `MemoryReader::find_process` (memory.rs line 110):
`let name = format!("\"{}\"", name)`. -/
def quoteName (name : String) : String := "\"" ++ name ++ "\""

/-- Accumulator-based splitter over the character list: `acc` holds the
(reversed) characters of the token currently being read. -/
def splitWsAux : List Char → List Char → List (List Char)
  | [], acc => if acc = [] then [] else [acc.reverse]
  | c :: rest, acc =>
    if c.isWhitespace then
      if acc = [] then splitWsAux rest []
      else acc.reverse :: splitWsAux rest []
    else splitWsAux rest (c :: acc)

/-- Rust's `str::split_whitespace`: the maximal whitespace-free substrings,
in order, with no empty tokens. -/
def splitWhitespace (s : String) : List String :=
  (splitWsAux s.toList []).map fun cs => String.mk cs

/-- Rust's `str::parse::<i32>`: optional sign, one or more ASCII digits,
value within `i32` range; anything else is a parse error. -/
def parseI32 (s : String) : Option Int :=
  match s.toList with
  | [] => none
  | c :: rest =>
    let signed : Int × List Char :=
      if c = '-' then (-1, rest) else if c = '+' then (1, rest) else (1, c :: rest)
    match signed with
    | (sign, digits) =>
      if digits = [] then none
      else if digits.all Char.isDigit then
        let v : Int :=
          sign * (digits.foldl (fun a d => a * 10 + ((d.toNat - 48 : Nat) : Int)) 0)
        if -2147483648 ≤ v ∧ v ≤ 2147483647 then some v else none
      else none

/-- `MemoryReader::find_process` (memory.rs lines 108-137), modelled from
the line-processing loop onward: `lines` is the output of the spawned
`sudo ps -e | grep -w "name"` pipeline (one line per matching process).
Each line is split on whitespace; the first line with a nonempty token
list has its leading token parsed as an `i32` and returned (a parse
failure propagates as `Error::ParseInt`); if no such line exists the call
signals `ProcessNotFound` carrying the QUOTED name, because the source
shadows `name` with `format!("\"{}\"", name)` before the loop. -/
def find_process (name : String) : List String → Except Error Int
  | [] => .error (.ProcessNotFound (quoteName name))
  | line :: rest =>
    match splitWhitespace line with
    | [] => find_process name rest
    | t :: _ =>
      match parseI32 t with
      | some v => .ok v
      | none => .error .ParseInt

/-! ### Helper lemmas -/

/-- On an exact transfer count, `read_bytes` returns the `len` bytes of
target memory starting at `address`. -/
theorem read_bytes_ok (m : Machine) (address len : Nat)
    (h : m.readv address len = (len : Int)) :
    read_bytes m address len =
      .ok ((List.range len).map fun i => m.mem (address + i)) := by
  have hne : ¬ ((len : Int) = -1) := by omega
  simp [read_bytes, h, hne]

/-- Every error produced by `read_bytes` carries the requested address. -/
theorem read_bytes_error_addr (m : Machine) (address len : Nat) (e : Error)
    (h : read_bytes m address len = .error e) :
    e = .ReadMemoryFailed address ∨ ∃ k, e = .ReadMemoryPartial address k := by
  by_cases h1 : m.readv address len = -1
  · simp only [read_bytes, if_pos h1] at h
    exact Or.inl (Except.error.inj h).symm
  · by_cases h2 : m.readv address len = (len : Int)
    · simp only [read_bytes, if_neg h1, h2, ne_eq, not_true_eq_false,
        if_false] at h
      exact absurd h (by simp)
    · simp only [read_bytes, if_neg h1, if_pos h2] at h
      exact Or.inr ⟨(m.readv address len).toNat, (Except.error.inj h).symm⟩

/-- `position` finds nothing in a chunk whose bytes are all nonzero. -/
theorem position_map_range_none :
    ∀ (n : Nat) (f : Nat → Nat), (∀ j < n, f j ≠ 0) →
      position (fun b => b == 0) ((List.range n).map f) = none := by
  intro n
  induction n with
  | zero => intro f _; rfl
  | succ k ih =>
    intro f h
    rw [List.range_succ_eq_map, List.map_cons, List.map_map, position]
    have h0 : ((f 0 == 0) = false) := beq_eq_false_iff_ne.mpr (h 0 (Nat.succ_pos k))
    rw [h0]
    simp only [Bool.false_eq_true, if_false]
    rw [ih (f ∘ Nat.succ) (fun j hj => h (j + 1) (Nat.succ_lt_succ hj))]
    rfl

/-- `position` finds the first zero byte of a chunk. -/
theorem position_map_range_some :
    ∀ (n : Nat) (f : Nat → Nat) (i : Nat), i < n → f i = 0 →
      (∀ j < i, f j ≠ 0) →
      position (fun b => b == 0) ((List.range n).map f) = some i := by
  intro n
  induction n with
  | zero => intro f i hi; omega
  | succ k ih =>
    intro f i hi h0 hnz
    rw [List.range_succ_eq_map, List.map_cons, List.map_map, position]
    cases i with
    | zero =>
      rw [show ((f 0 == 0) = true) from beq_iff_eq.mpr h0]
      simp
    | succ i' =>
      have hne : ((f 0 == 0) = false) :=
        beq_eq_false_iff_ne.mpr (hnz 0 (Nat.succ_pos i'))
      rw [hne]
      simp only [Bool.false_eq_true, if_false]
      rw [ih (f ∘ Nat.succ) i' (Nat.lt_of_succ_lt_succ hi) h0
        (fun j hj => hnz (j + 1) (Nat.succ_lt_succ hj))]
      rfl

/-- Splitting a mapped range at an interior point. -/
theorem rangeMap_split {α : Type} (f : Nat → α) (a b : Nat) :
    (List.range (a + b)).map f =
      (List.range a).map f ++ (List.range b).map fun j => f (a + j) := by
  rw [List.range_add, List.map_append, List.map_map]
  rfl

/-- One successful, terminator-free, full-size chunk advances the scan loop
by `CHUNK_SIZE` bytes. -/
theorem scanLoop_advance (m : Machine) (stop fuel start : Nat)
    (buffer : List Nat)
    (hin : start + CHUNK_SIZE ≤ stop)
    (hrv : m.readv start CHUNK_SIZE = (CHUNK_SIZE : Int))
    (hnz : ∀ j < CHUNK_SIZE, m.mem (start + j) ≠ 0) :
    scanLoop m stop (fuel + 1) start buffer =
      scanLoop m stop fuel (start + CHUNK_SIZE)
        (buffer ++ (List.range CHUNK_SIZE).map fun j => m.mem (start + j)) := by
  have hcs : 0 < CHUNK_SIZE := by decide
  have hlt : start < stop := by omega
  have hltr : ¬ (start + CHUNK_SIZE > stop) := by omega
  rw [scanLoop, if_pos hlt]
  simp only [if_neg hltr]
  rw [read_bytes_ok m start CHUNK_SIZE hrv]
  simp only [position_map_range_none CHUNK_SIZE (fun j => m.mem (start + j))
    (fun j hj => hnz j hj), List.length_map, List.length_range,
    lt_self_iff_false, if_false]

/-- `j` successful, terminator-free, full-size chunks advance the scan loop
by `j * CHUNK_SIZE` bytes, appending exactly those bytes to the buffer. -/
theorem scanLoop_skip (m : Machine) (stop : Nat) :
    ∀ (j fuel start : Nat) (buffer : List Nat), j ≤ fuel →
      start + j * CHUNK_SIZE ≤ stop →
      (∀ t < j, m.readv (start + t * CHUNK_SIZE) CHUNK_SIZE = (CHUNK_SIZE : Int)) →
      (∀ o < j * CHUNK_SIZE, m.mem (start + o) ≠ 0) →
      scanLoop m stop fuel start buffer =
        scanLoop m stop (fuel - j) (start + j * CHUNK_SIZE)
          (buffer ++ (List.range (j * CHUNK_SIZE)).map fun o => m.mem (start + o)) := by
  intro j
  induction j with
  | zero => intro fuel start buffer _ _ _ _; simp
  | succ k ih =>
    intro fuel start buffer hfuel hstop hrv hnz
    have hcs : CHUNK_SIZE = 256 := rfl
    have hm : (k + 1) * CHUNK_SIZE = CHUNK_SIZE + k * CHUNK_SIZE := by ring
    obtain ⟨f, rfl⟩ : ∃ f, fuel = f + 1 := ⟨fuel - 1, by omega⟩
    rw [scanLoop_advance m stop f start buffer (by omega)
      (by simpa using hrv 0 (Nat.succ_pos k))
      (fun o ho => by
        have := hnz o (by omega)
        simpa using this)]
    rw [ih f (start + CHUNK_SIZE)
      (buffer ++ (List.range CHUNK_SIZE).map fun o => m.mem (start + o))
      (by omega) (by omega)
      (fun t ht => by
        have := hrv (t + 1) (Nat.succ_lt_succ ht)
        have harith : start + (t + 1) * CHUNK_SIZE
            = start + CHUNK_SIZE + t * CHUNK_SIZE := by ring
        rwa [harith] at this)
      (fun o ho => by
        have := hnz (CHUNK_SIZE + o) (by omega)
        have harith : start + (CHUNK_SIZE + o) = start + CHUNK_SIZE + o := by ring
        rwa [harith] at this)]
    have harith2 : start + CHUNK_SIZE + k * CHUNK_SIZE
        = start + (k + 1) * CHUNK_SIZE := by ring
    have hfe : f + 1 - (k + 1) = f - k := by omega
    rw [hfe, harith2, List.append_assoc]
    have hsplit : (List.range ((k + 1) * CHUNK_SIZE)).map
          (fun o => m.mem (start + o))
        = (List.range CHUNK_SIZE).map (fun o => m.mem (start + o)) ++
          (List.range (k * CHUNK_SIZE)).map
            (fun o => m.mem (start + CHUNK_SIZE + o)) := by
      have hfun : (fun j => m.mem (start + (CHUNK_SIZE + j)))
          = fun o => m.mem (start + CHUNK_SIZE + o) := by
        funext o
        rw [Nat.add_assoc]
      rw [hm, rangeMap_split (fun o => m.mem (start + o)) CHUNK_SIZE
        (k * CHUNK_SIZE), hfun]
    rw [hsplit]

/-- A transfer count `k < len` makes `read_bytes` signal
`ReadMemoryPartial(address, k)`. -/
theorem read_bytes_short (m : Machine) (address len k : Nat)
    (h : m.readv address len = (k : Int)) (hk : k < len) :
    read_bytes m address len = .error (.ReadMemoryPartial address k) := by
  have h1 : ¬ ((k : Int) = -1) := by omega
  have h2 : ¬ ((k : Int) = (len : Int)) := by omega
  simp [read_bytes, h, h1, h2]

/-- If the first `j` chunks of the scan read fully and contain no
terminator, and `read_bytes` fails at the cursor `range.start +
j * CHUNK_SIZE`, then `read_string` returns that error unchanged,
discarding the accumulated bytes. -/
theorem read_string_chunk_error (m : Machine) (r : MemoryRange) (j : Nat)
    (e : Error)
    (hcur : r.start + j * CHUNK_SIZE < r.stop)
    (hrv : ∀ t < j,
      m.readv (r.start + t * CHUNK_SIZE) CHUNK_SIZE = (CHUNK_SIZE : Int))
    (hnz : ∀ o < j * CHUNK_SIZE, m.mem (r.start + o) ≠ 0)
    (herr : read_bytes m (r.start + j * CHUNK_SIZE)
        (if r.start + j * CHUNK_SIZE + CHUNK_SIZE > r.stop
         then r.stop - (r.start + j * CHUNK_SIZE)
         else CHUNK_SIZE) = .error e) :
    read_string m r = .error e := by
  have hj : j ≤ j * CHUNK_SIZE := Nat.le_mul_of_pos_right j (by decide)
  simp only [read_string]
  rw [scanLoop_skip m r.stop j (r.stop - r.start) r.start [] (by omega)
    (by omega) hrv hnz]
  obtain ⟨f, hf⟩ : ∃ f, r.stop - r.start - j = f + 1 :=
    ⟨r.stop - r.start - j - 1, by omega⟩
  rw [hf, scanLoop, if_pos (by omega : r.start + j * CHUNK_SIZE < r.stop)]
  simp only [herr]

/-! ### Concrete machines used in the closed theorems -/

/-- Every read/write transfers fully; every byte of target memory is 65. -/
def mA : Machine := ⟨fun _ n => (n : Int), fun _ n => (n : Int), fun _ => 65⟩

/-- Byte 0 is `0x80` (not valid UTF-8 on its own), byte 1 is the
terminator; every transfer full. -/
def mB : Machine :=
  ⟨fun _ n => (n : Int), fun _ n => (n : Int),
    fun x => if x = 1 then 0 else 128⟩

/-- All-ones memory; the read at address 0 transfers fully, any other read
transfers only 10 bytes. -/
def mShort : Machine :=
  ⟨fun a n => if a = 0 then (n : Int) else 10, fun _ n => (n : Int),
    fun _ => 1⟩

/-- All-ones memory; reads at address 0 transfer fully, any other read
fails with `-1`; every write transfers only 2 bytes. -/
def mFail : Machine :=
  ⟨fun a n => if a = 0 then (n : Int) else -1, fun _ _ => 2, fun _ => 1⟩

/-- Terminator at address 2, bytes 65 elsewhere; every transfer full. -/
def mTerm : Machine :=
  ⟨fun _ n => (n : Int), fun _ n => (n : Int),
    fun x => if x = 2 then 0 else 65⟩

/-! ### Claim theorems -/

/-- C1: refuted by the code (code bug).  The spec requires that when no
null terminator occurs before `range.end` and every chunk read succeeds in
full, `read_string` signals `ReadMemoryPartial(range.start, decoded_length)`
rather than returning the unterminated string as a clean success.  The
code does the opposite: `reached_end` is set only in the
`chunk.len() < length_to_read` branch, which is unreachable because
`read_bytes` returns `Ok` only on a full transfer, and the loop exit at
`range.end` never sets it.  At the failing input — memory all 65 (`'A'`),
all reads full, range `[0, 4)` — the call returns the clean success
`"AAAA"` instead of the required partial-read error. -/
theorem read_string_unterminated_bug :
    read_string mA ⟨0, 4⟩ = .ok [65, 65, 65, 65] ∧
      read_string mA ⟨0, 4⟩ ≠ .error (.ReadMemoryPartial 0 4) := by
  decide

/-- C3: `read_bytes(address, len)` succeeds exactly when the syscall
transfer count equals `len`; any lesser non-negative count `k` (including
`k = 0`) yields `ReadMemoryPartial(address, k)` carrying exactly `k`; and
a negative return — which under the libc convention assumed in the
hypothesis is always `-1` — yields `ReadMemoryFailed(address)`. -/
theorem read_bytes_transfer_count (m : Machine) (address len : Nat)
    (hlibc : m.readv address len < 0 → m.readv address len = -1) :
    ((∃ bs, read_bytes m address len = .ok bs) ↔
        m.readv address len = (len : Int)) ∧
      (∀ k : Nat, m.readv address len = (k : Int) → k < len →
        read_bytes m address len = .error (.ReadMemoryPartial address k)) ∧
      (m.readv address len < 0 →
        read_bytes m address len = .error (.ReadMemoryFailed address)) := by
  refine ⟨⟨?_, ?_⟩, ?_, ?_⟩
  · rintro ⟨bs, hbs⟩
    by_cases h1 : m.readv address len = -1
    · simp [read_bytes, h1] at hbs
    · by_cases h2 : m.readv address len = (len : Int)
      · exact h2
      · simp [read_bytes, h1, h2] at hbs
  · intro h
    exact ⟨_, read_bytes_ok m address len h⟩
  · intro k hk hlt
    exact read_bytes_short m address len k hk hlt
  · intro hneg
    simp [read_bytes, hlibc hneg]

/-- Concrete instance of `read_bytes_transfer_count`: on `mFail` the read
of 7 bytes at address 9 reports `-1` and fails, and on `mShort` the read
of 256 bytes at address 256 transfers 10 and carries exactly 10. -/
theorem read_bytes_transfer_count_witness :
    read_bytes mFail 9 7 = .error (.ReadMemoryFailed 9) ∧
      read_bytes mShort 256 256 = .error (.ReadMemoryPartial 256 10) :=
  ⟨(read_bytes_transfer_count mFail 9 7 (by decide)).2.2 (by decide),
    (read_bytes_transfer_count mShort 256 256 (by decide)).2.1 10 (by decide)
      (by decide)⟩

/-- C5: `write_bytes(address, data)` succeeds exactly when the syscall
transfer count equals `data.length`; any lesser non-negative count `k`
yields `WriteMemoryPartial(address, k)` carrying exactly `k`; and a
negative return — under the libc convention, `-1` — yields
`WriteMemoryFailed(address)`. -/
theorem write_bytes_transfer_count (m : Machine) (address : Nat)
    (data : List Nat)
    (hlibc : m.writev address data.length < 0 →
      m.writev address data.length = -1) :
    (write_bytes m address data = .ok () ↔
        m.writev address data.length = (data.length : Int)) ∧
      (∀ k : Nat, m.writev address data.length = (k : Int) →
        k < data.length →
        write_bytes m address data = .error (.WriteMemoryPartial address k)) ∧
      (m.writev address data.length < 0 →
        write_bytes m address data = .error (.WriteMemoryFailed address)) := by
  refine ⟨⟨?_, ?_⟩, ?_, ?_⟩
  · intro hok
    by_cases h1 : m.writev address data.length = -1
    · simp [write_bytes, h1] at hok
    · by_cases h2 : m.writev address data.length = (data.length : Int)
      · exact h2
      · simp [write_bytes, h1, h2] at hok
  · intro h
    have h1 : ¬ ((data.length : Int) = -1) := by omega
    simp [write_bytes, h, h1]
  · intro k hk hlt
    have h1 : ¬ ((k : Int) = -1) := by omega
    have h2 : ¬ ((k : Int) = (data.length : Int)) := by omega
    simp [write_bytes, hk, h1, h2]
  · intro hneg
    simp [write_bytes, hlibc hneg]

/-- Concrete instance of `write_bytes_transfer_count`: on `mFail` the
write of `[1, 2, 3, 4]` at address 0 transfers 2 bytes and carries
exactly 2. -/
theorem write_bytes_transfer_count_witness :
    write_bytes mFail 0 [1, 2, 3, 4] = .error (.WriteMemoryPartial 0 2) :=
  (write_bytes_transfer_count mFail 0 [1, 2, 3, 4] (by decide)).2.1 2
    (by decide) (by decide)

/-- C8: if the scan loop completes with accumulated bytes that are not
valid UTF-8, `read_string` signals `ReadMemoryFailed(range.start)`. -/
theorem read_string_decode_failure (m : Machine) (range : MemoryRange)
    (buf : List Nat) (re : Bool)
    (hscan : scanLoop m range.stop (range.stop - range.start) range.start []
        = .ok (buf, re))
    (hbad : utf8Valid buf = false) :
    read_string m range = .error (.ReadMemoryFailed range.start) := by
  simp [read_string, hscan, hbad]

/-- Concrete instance of `read_string_decode_failure`: on `mB` the scan
accumulates the single byte `0x80`, which is not valid UTF-8, and the call
fails with `ReadMemoryFailed(0)`. -/
theorem read_string_decode_failure_witness :
    scanLoop mB 2 2 0 [] = .ok ([128], false) ∧ utf8Valid [128] = false ∧
      read_string mB ⟨0, 2⟩ = .error (.ReadMemoryFailed 0) :=
  ⟨by decide, by decide,
    read_string_decode_failure mB ⟨0, 2⟩ [128] false (by decide) (by decide)⟩

/-- C10: for a range with `start ≥ end` the scan loop never runs — the
result is independent of the machine, i.e. no memory is read — and
`read_string` returns the empty string as a clean success. -/
theorem read_string_empty_range (m : Machine) (range : MemoryRange)
    (h : range.stop ≤ range.start) :
    read_string m range = .ok [] := by
  have h0 : range.stop - range.start = 0 := Nat.sub_eq_zero_of_le h
  simp only [read_string, h0, scanLoop]
  rfl

/-- Concrete instance of `read_string_empty_range`: range `[5, 3)`. -/
theorem read_string_empty_range_witness :
    read_string mA ⟨5, 3⟩ = .ok [] :=
  read_string_empty_range mA ⟨5, 3⟩ (by decide)

set_option maxRecDepth 10000 in
/-- C2 counterexample: on `mShort` (all-ones memory; the chunk read at
address 0 transfers fully, the one at address 256 transfers only 10 of the
256 requested bytes) over range `[0, 600)`, `read_string` does not
accumulate-and-continue as the claim states: it returns the
`ReadMemoryPartial(256, 10)` error produced by `read_bytes` at the failing
cursor, not `ReadMemoryPartial(0, 266)` at `range.start` with the decoded
length of the 256 + 10 accumulated bytes. -/
theorem read_string_short_transfer_cx :
    read_string mShort ⟨0, 600⟩ = .error (.ReadMemoryPartial 256 10) ∧
      read_string mShort ⟨0, 600⟩ ≠ .error (.ReadMemoryPartial 0 266) := by
  decide

/-- C2 as amended: when a chunk read transfers `k` bytes, fewer than the
`length_to_read` requested, `read_bytes` itself signals
`ReadMemoryPartial(cursor, k)` and `read_string` returns that error
unchanged, discarding the bytes accumulated so far; the
accumulate-mark-and-stop branch of the scan loop is unreachable, because a
successful chunk read always returns exactly the requested length. -/
theorem read_string_short_transfer_propagated (m : Machine)
    (r : MemoryRange) (j k : Nat)
    (hcur : r.start + j * CHUNK_SIZE < r.stop)
    (hrv : ∀ t < j,
      m.readv (r.start + t * CHUNK_SIZE) CHUNK_SIZE = (CHUNK_SIZE : Int))
    (hnz : ∀ o < j * CHUNK_SIZE, m.mem (r.start + o) ≠ 0)
    (hshort : m.readv (r.start + j * CHUNK_SIZE)
        (if r.start + j * CHUNK_SIZE + CHUNK_SIZE > r.stop
         then r.stop - (r.start + j * CHUNK_SIZE)
         else CHUNK_SIZE) = (k : Int))
    (hk : k < (if r.start + j * CHUNK_SIZE + CHUNK_SIZE > r.stop
         then r.stop - (r.start + j * CHUNK_SIZE)
         else CHUNK_SIZE)) :
    read_string m r =
      .error (.ReadMemoryPartial (r.start + j * CHUNK_SIZE) k) :=
  read_string_chunk_error m r j _ hcur hrv hnz
    (read_bytes_short m _ _ k hshort hk)

set_option maxRecDepth 10000 in
/-- Concrete instance of `read_string_short_transfer_propagated` on
`mShort` over `[0, 600)`: the second chunk (cursor 256) transfers 10 of
256 bytes, and the call returns `ReadMemoryPartial(256, 10)`. -/
theorem read_string_short_transfer_propagated_witness :
    read_string mShort ⟨0, 600⟩ = .error (.ReadMemoryPartial 256 10) :=
  read_string_short_transfer_propagated mShort ⟨0, 600⟩ 1 10 (by decide)
    (by decide) (by decide) (by decide) (by decide)

/-- C9: if the chunk read at cursor `range.start + j * CHUNK_SIZE` fails
after `j` full terminator-free chunks (so the cursor equals `range.start`
plus the number of bytes already accumulated), `read_string` returns the
`read_bytes` error unchanged — an error carrying the cursor address, not
`range.start` — and the accumulated bytes are discarded. -/
theorem read_string_propagates_chunk_error (m : Machine) (r : MemoryRange)
    (j : Nat) (e : Error)
    (hcur : r.start + j * CHUNK_SIZE < r.stop)
    (hrv : ∀ t < j,
      m.readv (r.start + t * CHUNK_SIZE) CHUNK_SIZE = (CHUNK_SIZE : Int))
    (hnz : ∀ o < j * CHUNK_SIZE, m.mem (r.start + o) ≠ 0)
    (herr : read_bytes m (r.start + j * CHUNK_SIZE)
        (if r.start + j * CHUNK_SIZE + CHUNK_SIZE > r.stop
         then r.stop - (r.start + j * CHUNK_SIZE)
         else CHUNK_SIZE) = .error e) :
    read_string m r = .error e ∧
      (e = .ReadMemoryFailed (r.start + j * CHUNK_SIZE) ∨
        ∃ k, e = .ReadMemoryPartial (r.start + j * CHUNK_SIZE) k) :=
  ⟨read_string_chunk_error m r j e hcur hrv hnz herr,
    read_bytes_error_addr m _ _ e herr⟩

set_option maxRecDepth 10000 in
/-- Concrete instance of `read_string_propagates_chunk_error` on `mFail`
over `[0, 300)`: the first chunk (256 bytes at address 0) reads fully with
no terminator, the second chunk read (44 bytes at cursor 256) fails with
`-1`, and the call returns `ReadMemoryFailed(256)` — the cursor, not 0. -/
theorem read_string_propagates_chunk_error_witness :
    read_string mFail ⟨0, 300⟩ = .error (.ReadMemoryFailed 256) :=
  (read_string_propagates_chunk_error mFail ⟨0, 300⟩ 1 (.ReadMemoryFailed 256)
    (by decide) (by decide) (by decide) (by decide)).1

/-- C6: round-trip.  If `write_bytes(a, b)` succeeds, then — absent
external mutation, i.e. on the machine whose memory is the target's
memory after that write — a fully transferred `read_bytes(a, b.length)`
returns exactly `b`. -/
theorem write_read_roundtrip (m : Machine) (a : Nat) (b : List Nat)
    (hw : write_bytes m a b = .ok ())
    (hrv : (applyWrite m a b).readv a b.length = (b.length : Int)) :
    read_bytes (applyWrite m a b) a b.length = .ok b := by
  rw [read_bytes_ok (applyWrite m a b) a b.length hrv]
  congr 1
  apply List.ext_getElem
  · simp
  · intro i h1 h2
    simp only [List.getElem_map, List.getElem_range, applyWrite, writeMem]
    rw [if_pos ⟨Nat.le_add_right a i, by omega⟩, Nat.add_sub_cancel_left]
    exact List.getD_eq_getElem b 0 h2

/-- Concrete instance of `write_read_roundtrip`: writing `[1, 2, 3]` at
address 5 of `mA` and reading 3 bytes back returns `[1, 2, 3]`. -/
theorem write_read_roundtrip_witness :
    write_bytes mA 5 [1, 2, 3] = .ok () ∧
      read_bytes (applyWrite mA 5 [1, 2, 3]) 5 3 = .ok [1, 2, 3] :=
  ⟨by decide, write_read_roundtrip mA 5 [1, 2, 3] (by decide) (by decide)⟩

/-- C7 counterexample: with no matching line, `find_process` signals
`ProcessNotFound` carrying the QUOTED name `"\"foo\""` (the source shadows
`name` with `format!("\"{}\"", name)` before the loop), not the supplied
name `"foo"` as the claim states. -/
theorem find_process_quoted_payload_cx :
    find_process "foo" [] = .error (.ProcessNotFound "\"foo\"") ∧
      find_process "foo" [] ≠ .error (.ProcessNotFound "foo") := by
  decide

/-- C7 as amended: `find_process` returns the identifier parsed from the
leading whitespace-delimited token of the first matching line of the
enumeration output; when no line matches it signals `ProcessNotFound`
carrying the supplied name wrapped in double quotes (the quoted pattern
built by the source); and it signals a parse error if a matched line's
leading token is not a valid `i32`. -/
theorem find_process_first_token (name : String) :
    (find_process name [] = .error (.ProcessNotFound (quoteName name))) ∧
      (∀ (line : String) (rest : List String) (t : String)
        (ts : List String) (v : Int),
        splitWhitespace line = t :: ts → parseI32 t = some v →
          find_process name (line :: rest) = .ok v) ∧
      (∀ (line : String) (rest : List String) (t : String)
        (ts : List String),
        splitWhitespace line = t :: ts → parseI32 t = none →
          find_process name (line :: rest) = .error .ParseInt) := by
  refine ⟨rfl, ?_, ?_⟩
  · intro line rest t ts v hsplit hparse
    simp [find_process, hsplit, hparse]
  · intro line rest t ts hsplit hparse
    simp [find_process, hsplit, hparse]

/-- Concrete instance of `find_process_first_token`: no match yields
`ProcessNotFound("\"foo\"")`; the line `" 123 foo"` yields 123; the line
`"abc foo"` yields a parse error. -/
theorem find_process_first_token_witness :
    find_process "foo" [] = .error (.ProcessNotFound "\"foo\"") ∧
      find_process "foo" [" 123 foo"] = .ok 123 ∧
      find_process "foo" ["abc foo"] = .error .ParseInt := by
  refine ⟨?_, ?_, ?_⟩
  · have h := (find_process_first_token "foo").1
    have e : quoteName "foo" = "\"foo\"" := by decide
    rwa [e] at h
  · exact (find_process_first_token "foo").2.1 " 123 foo" [] "123" ["foo"]
      123 (by decide) (by decide)
  · exact (find_process_first_token "foo").2.2 "abc foo" [] "abc" ["foo"]
      (by decide) (by decide)

/-- If the chunk read at `start` succeeds in full and its first zero byte
sits at offset `u`, the scan loop stops there, appending the `u` bytes
before the terminator, with `reached_end` still false. -/
theorem scanLoop_found (m : Machine) (stop fuel start : Nat)
    (buffer : List Nat) (L u : Nat)
    (hL : (if start + CHUNK_SIZE > stop then stop - start else CHUNK_SIZE) = L)
    (hrvL : m.readv start L = (L : Int))
    (hlt : start < stop)
    (huL : u < L)
    (hzu : m.mem (start + u) = 0)
    (hnzu : ∀ v < u, m.mem (start + v) ≠ 0) :
    scanLoop m stop (fuel + 1) start buffer
      = .ok (buffer ++ (List.range u).map fun v => m.mem (start + v),
          false) := by
  rw [scanLoop, if_pos hlt]
  simp only [hL]
  rw [read_bytes_ok m start L hrvL]
  simp only [position_map_range_some L (fun v => m.mem (start + v)) u huL
    hzu hnzu]
  have htake : ((List.range L).map fun v => m.mem (start + v)).take u
      = (List.range u).map fun v => m.mem (start + v) := by
    rw [← List.map_take, List.take_range, Nat.min_eq_left (le_of_lt huL)]
  rw [htake]

/-- C4 counterexample: on `mB` over `[0, 2)` the first zero byte of the
region is at offset 1, `0 + 1 < 2`, and all reads succeed in full, so the
claim requires the clean success `[0x80]`; but `0x80` alone is not valid
UTF-8, and the code returns `ReadMemoryFailed(0)`. -/
theorem read_string_terminator_nonutf8_cx :
    mB.mem (0 + 1) = 0 ∧ mB.mem (0 + 0) ≠ 0 ∧ mB.readv 0 2 = 2 ∧
      read_string mB ⟨0, 2⟩ = .error (.ReadMemoryFailed 0) ∧
      read_string mB ⟨0, 2⟩ ≠ .ok [128] := by
  decide

/-- C4 as amended: for every memory state in which the first zero byte of
the region lies at offset `i` with `range.start + i < range.end`, all
chunk reads succeed in full, and — as the decode-failure rule (claim C8)
forces — the `i` bytes before the terminator are valid UTF-8,
`read_string` returns exactly those bytes as a clean success, ignoring
everything after the terminator.  The offset `i` is arbitrary, so this
includes a terminator on the last byte of a chunk: it is detected in the
chunk that contains it, neither missed nor duplicated. -/
theorem read_string_terminator_clean (m : Machine) (r : MemoryRange)
    (i : Nat)
    (hi : r.start + i < r.stop)
    (hz : m.mem (r.start + i) = 0)
    (hnz : ∀ j < i, m.mem (r.start + j) ≠ 0)
    (hrv : ∀ a n, r.start ≤ a → a + n ≤ r.stop → m.readv a n = (n : Int))
    (hutf : utf8Valid ((List.range i).map fun j => m.mem (r.start + j))
        = true) :
    read_string m r
      = .ok ((List.range i).map fun j => m.mem (r.start + j)) := by
  have hcs : CHUNK_SIZE = 256 := rfl
  obtain ⟨q, u, hqu, hult⟩ :
      ∃ q u, i = q * CHUNK_SIZE + u ∧ u < CHUNK_SIZE :=
    ⟨i / CHUNK_SIZE, i % CHUNK_SIZE, by rw [hcs]; omega, by rw [hcs]; omega⟩
  have hqle : q ≤ q * CHUNK_SIZE := Nat.le_mul_of_pos_right q (by decide)
  have hskip := scanLoop_skip m r.stop q (r.stop - r.start) r.start []
    (by omega) (by omega)
    (fun t ht => by
      apply hrv _ _ (Nat.le_add_right _ _)
      have h3 : (t + 1) * CHUNK_SIZE ≤ q * CHUNK_SIZE :=
        Nat.mul_le_mul_right _ (by omega)
      have h4 : (t + 1) * CHUNK_SIZE = t * CHUNK_SIZE + CHUNK_SIZE := by ring
      omega)
    (fun o ho => hnz o (by omega))
  obtain ⟨f, hf⟩ : ∃ f, r.stop - r.start - q = f + 1 :=
    ⟨r.stop - r.start - q - 1, by omega⟩
  have hlist : (([] : List Nat)
        ++ (List.range (q * CHUNK_SIZE)).map fun o => m.mem (r.start + o))
      ++ ((List.range u).map fun v => m.mem (r.start + q * CHUNK_SIZE + v))
      = (List.range i).map fun j => m.mem (r.start + j) := by
    have hfun : (fun j => m.mem (r.start + (q * CHUNK_SIZE + j)))
        = fun v => m.mem (r.start + q * CHUNK_SIZE + v) := by
      funext v
      rw [Nat.add_assoc]
    rw [List.nil_append, hqu, rangeMap_split (fun o => m.mem (r.start + o))
      (q * CHUNK_SIZE) u, hfun]
  have hzu : m.mem (r.start + q * CHUNK_SIZE + u) = 0 := by
    have harith : r.start + q * CHUNK_SIZE + u = r.start + i := by omega
    rw [harith]
    exact hz
  have hnzu : ∀ v < u, m.mem (r.start + q * CHUNK_SIZE + v) ≠ 0 := by
    intro v hv
    have h5 := hnz (q * CHUNK_SIZE + v) (by omega)
    have harith : r.start + (q * CHUNK_SIZE + v)
        = r.start + q * CHUNK_SIZE + v := by ring
    rwa [harith] at h5
  have hscan : scanLoop m r.stop (r.stop - r.start) r.start []
      = .ok ((List.range i).map fun j => m.mem (r.start + j), false) := by
    rw [hskip, hf]
    by_cases hca : r.start + q * CHUNK_SIZE + CHUNK_SIZE > r.stop
    · rw [scanLoop_found m r.stop f (r.start + q * CHUNK_SIZE) _
        (r.stop - (r.start + q * CHUNK_SIZE)) u (if_pos hca)
        (hrv _ _ (Nat.le_add_right _ _) (by omega)) (by omega) (by omega)
        hzu hnzu]
      rw [hlist]
    · rw [scanLoop_found m r.stop f (r.start + q * CHUNK_SIZE) _
        CHUNK_SIZE u (if_neg hca)
        (hrv _ _ (Nat.le_add_right _ _) (by omega)) (by omega) hult
        hzu hnzu]
      rw [hlist]
  simp [read_string, hscan, hutf]

/-- Concrete instance of `read_string_terminator_clean` on `mTerm`
(terminator at address 2, bytes 65 before it) over `[0, 4)`: the call
returns the clean success `[65, 65]`, ignoring everything after the
terminator. -/
theorem read_string_terminator_clean_witness :
    read_string mTerm ⟨0, 4⟩ = .ok [65, 65] := by
  have h := read_string_terminator_clean mTerm ⟨0, 4⟩ 2 (by decide)
    (by decide) (by decide) (fun a n _ _ => rfl) (by decide)
  have e : ((List.range 2).map fun j => mTerm.mem (0 + j)) = [65, 65] := by
    decide
  rwa [e] at h

end CombatLogger
